import Mathlib

/-!
Verification development for a repository of segmentation / model-validation
scripts.  Each namespace shallowly embeds one Python script:

* `ModelValidator`   — `litert-flutter-integration/scripts/model_validator.py`
* `BboxBatch`        — `edgetam-segmentation/scripts/bbox_batch_segmentation.py`
* `InteractiveSeg`   — `edgetam-segmentation/scripts/interactive_segmentation.py`

External model inference (TFLite interpreter, EdgeTAM forward passes) is
abstracted as parameters; all control flow, accumulation and arithmetic of the
scripts themselves is embedded faithfully.
-/

namespace ModelValidator

/-- The inputs that the validator's checks inspect, abstracted from the loaded
interpreter and the file system.  `size_mb` and `memory_mb` are the megabyte
values the script stores into `info` (float rounding to two decimals is
abstracted: both the warning conditions and the score conditions compare the
same rational value).  `dynamicInputs` is the number of input tensors whose
shape contains `-1`.  `opsWarn` holds when `_check_operations` appends a
warning, i.e. when the model bytes contain `FlexDelegate` or reading the file
raised an exception. -/
structure ModelInfo where
  size_mb : ℚ
  quantized : Bool
  dynamicInputs : ℕ
  opsWarn : Bool
  memory_mb : ℚ
deriving Repr, DecidableEq

/-- Warnings appended by `_check_file_size` (runs before the model is loaded):
one warning when the size exceeds 100 MB, else one when it exceeds 50 MB. -/
def fileSizeWarnings (info : ModelInfo) : List String :=
  if info.size_mb > 100 then
    ["Model size is large for mobile deployment. Consider using quantization."]
  else if info.size_mb > 50 then
    ["Model size may impact app performance. Quantization recommended."]
  else []

/-- Warnings appended by `_check_input_output`: one per input tensor with a
dynamic shape. -/
def inputOutputWarnings (info : ModelInfo) : List String :=
  List.replicate info.dynamicInputs
    "Input tensor has dynamic shape. May not be optimized for mobile."

/-- Warning appended by `_check_quantization` when no tensor dtype is
uint8/int8. -/
def quantizationWarnings (info : ModelInfo) : List String :=
  if info.quantized then []
  else ["Model is not quantized. Consider INT8 quantization for better mobile performance."]

/-- Warning appended by `_check_operations` (FlexDelegate bytes present, or the
read raised). -/
def operationsWarnings (info : ModelInfo) : List String :=
  if info.opsWarn then ["Model contains TensorFlow operations (SELECT_TF_OPS)."]
  else []

/-- Warning appended by `_check_memory_usage` when the estimated memory exceeds
100 MB. -/
def memoryWarnings (info : ModelInfo) : List String :=
  if info.memory_mb > 100 then ["High memory usage. May cause OOM errors on low-end devices."]
  else []

/-- All warnings accumulated before `_check_mobile_compatibility` runs, in the
order `validate` executes the checks. -/
def allWarnings (info : ModelInfo) : List String :=
  fileSizeWarnings info ++ inputOutputWarnings info ++ quantizationWarnings info
    ++ operationsWarnings info ++ memoryWarnings info

/-- `_check_mobile_compatibility`: starts at 100, deducts 20 when not
quantized, 15 / 5 for size over 50 / over 20 MB, 10 for estimated memory over
50 MB, and 5 per accumulated warning.  The returned value is the raw
(pre-floor) score, an integer that may be negative. -/
def rawScore (info : ModelInfo) (numWarnings : ℕ) : ℤ :=
  let s0 : ℤ := 100
  let s1 : ℤ := if info.quantized then s0 else s0 - 20
  let s2 : ℤ :=
    if info.size_mb > 50 then s1 - 15
    else if info.size_mb > 20 then s1 - 5
    else s1
  let s3 : ℤ := if info.memory_mb > 50 then s2 - 10 else s2
  s3 - 5 * numWarnings

/-- The value stored as `info['compatibility_score']`: the raw score floored at
0 via `max(0, compatibility_score)`. -/
def compatibilityScore (info : ModelInfo) : ℤ :=
  max 0 (rawScore info (allWarnings info).length)

/-- Result dictionary of `validate`; `score = none` models the runs that bail
out before `_check_mobile_compatibility` stores a score. -/
structure VResults where
  valid : Bool
  errors : List String
  warnings : List String
  score : Option ℤ
deriving Repr, DecidableEq

/-- `TFLiteModelValidator.validate`: if the model file is missing, record an
error and return; `_check_file_size` runs next; if the interpreter fails to
load or allocate, record an error and return; otherwise run the remaining
checks and store the compatibility score.  `fileExists` and `loadOk` abstract
the file system and the TFLite interpreter. -/
def validate (fileExists : Bool) (loadOk : Bool) (info : ModelInfo) : VResults :=
  if !fileExists then
    { valid := false, errors := ["Model file not found"], warnings := [], score := none }
  else if !loadOk then
    { valid := false, errors := ["Failed to load model"],
      warnings := fileSizeWarnings info, score := none }
  else
    { valid := true, errors := [], warnings := allWarnings info,
      score := some (compatibilityScore info) }

/-- `main` after `validate`: when `--test` was passed and the results are
valid, `test_inference` runs and appends a warning if the dummy forward pass
raises; it never touches `valid` or `errors`. -/
def mainResults (fileExists loadOk : Bool) (info : ModelInfo)
    (testFlag testOk : Bool) : VResults :=
  let results := validate fileExists loadOk info
  if testFlag && results.valid && !testOk then
    { results with warnings := results.warnings ++ ["Test inference failed"] }
  else results

/-- `sys.exit(0 if results['valid'] else 1)`. -/
def exitCode (fileExists loadOk : Bool) (info : ModelInfo)
    (testFlag testOk : Bool) : ℕ :=
  if (mainResults fileExists loadOk info testFlag testOk).valid then 0 else 1

/-- The sequential deductions of `_check_mobile_compatibility` collapse to one
additive expression under the final floor. -/
lemma score_closed_form (info : ModelInfo) :
    compatibilityScore info =
      max 0 (100 - (if info.quantized then 0 else 20)
        - (if info.size_mb > 50 then 15 else if info.size_mb > 20 then 5 else 0)
        - (if info.memory_mb > 50 then 10 else 0)
        - 5 * ((allWarnings info).length : ℤ)) := by
  unfold compatibilityScore rawScore
  split_ifs <;> ring_nf

/-- Length of each warning source, as an if-expression. -/
lemma fileSizeWarnings_length (info : ModelInfo) :
    (fileSizeWarnings info).length =
      if info.size_mb > 100 then 1 else if info.size_mb > 50 then 1 else 0 := by
  unfold fileSizeWarnings; split_ifs <;> rfl

lemma inputOutputWarnings_length (info : ModelInfo) :
    (inputOutputWarnings info).length = info.dynamicInputs := by
  unfold inputOutputWarnings; simp

lemma quantizationWarnings_length (info : ModelInfo) :
    (quantizationWarnings info).length = if info.quantized then 0 else 1 := by
  unfold quantizationWarnings; split_ifs <;> rfl

lemma operationsWarnings_length (info : ModelInfo) :
    (operationsWarnings info).length = if info.opsWarn then 1 else 0 := by
  unfold operationsWarnings; split_ifs <;> rfl

lemma memoryWarnings_length (info : ModelInfo) :
    (memoryWarnings info).length = if info.memory_mb > 100 then 1 else 0 := by
  unfold memoryWarnings; split_ifs <;> rfl

lemma allWarnings_length (info : ModelInfo) :
    (allWarnings info).length =
      (if info.size_mb > 100 then 1 else if info.size_mb > 50 then 1 else 0)
      + info.dynamicInputs + (if info.quantized then 0 else 1)
      + (if info.opsWarn then 1 else 0) + (if info.memory_mb > 100 then 1 else 0) := by
  unfold allWarnings
  simp only [List.length_append, fileSizeWarnings_length, inputOutputWarnings_length,
    quantizationWarnings_length, operationsWarnings_length, memoryWarnings_length]

/-- **C1.** The stored mobile compatibility score is the additive
point-deduction value — 100 minus 20 for a non-quantized model, minus 15 for
size over 50 MB (else 5 for size over 20 MB), minus 10 for estimated memory
over 50 MB, minus 5 per accumulated warning — floored at 0, and it always lies
in the interval [0, 100]. -/
theorem score_additive_and_bounded (info : ModelInfo) :
    compatibilityScore info =
      max 0 (100 - (if info.quantized then 0 else 20)
        - (if info.size_mb > 50 then 15 else if info.size_mb > 20 then 5 else 0)
        - (if info.memory_mb > 50 then 10 else 0)
        - 5 * ((allWarnings info).length : ℤ))
    ∧ 0 ≤ compatibilityScore info ∧ compatibilityScore info ≤ 100 := by
  refine ⟨score_closed_form info, ?_, ?_⟩
  · rw [score_closed_form]; exact le_max_left 0 _
  · rw [score_closed_form]
    have h : (0 : ℤ) ≤ 100 := by norm_num
    refine max_le h ?_
    split_ifs <;> omega

/-- If condition `c` forces condition `d` and the false-branch is below the
true-branch, the if-value at `c` is below the if-value at `d`. -/
lemma ite_le_imp {α : Type} [Preorder α] (c d : Prop) [Decidable c] [Decidable d]
    (h : c → d) (v w : α) (hwv : w ≤ v) :
    (if c then v else w) ≤ (if d then v else w) := by
  split_ifs <;> first | exact le_refl _ | exact hwv | tauto

/-- If condition `d` forces condition `c` and the true-branch is below the
false-branch, the if-value at `c` is below the if-value at `d`. -/
lemma ite_le_flag {α : Type} [Preorder α] (d c : Prop) [Decidable c] [Decidable d]
    (h : d → c) (v w : α) (hvw : v ≤ w) :
    (if c then v else w) ≤ (if d then v else w) := by
  split_ifs <;> first | exact le_refl _ | exact hvw | tauto

/-- Monotonicity of a two-level if-chain with decreasing branch values, given
condition implications. -/
lemma ite_chain_le {α : Type} [Preorder α] (c1 c2 d1 d2 : Prop)
    [Decidable c1] [Decidable c2] [Decidable d1] [Decidable d2]
    (h1 : c1 → d1) (h2 : c2 → d2) (v1 v2 v3 : α) (h21 : v2 ≤ v1) (h32 : v3 ≤ v2) :
    (if c1 then v1 else if c2 then v2 else v3)
      ≤ (if d1 then v1 else if d2 then v2 else v3) := by
  split_ifs <;>
    first | exact le_refl _ | exact h21 | exact h32 | exact le_trans h32 h21 | tauto

/-- **C3.** The compatibility score is antitone in the detected issue set: if
run `b` triggers every warning condition run `a` triggers (quantization, each
size threshold, each memory threshold, dynamic-shape count, operations
warning), then `b`'s stored score is at most `a`'s. -/
theorem score_antitone_in_issues (a b : ModelInfo)
    (hq : b.quantized = true → a.quantized = true)
    (hs100 : a.size_mb > 100 → b.size_mb > 100)
    (hs50 : a.size_mb > 50 → b.size_mb > 50)
    (hs20 : a.size_mb > 20 → b.size_mb > 20)
    (hm100 : a.memory_mb > 100 → b.memory_mb > 100)
    (hm50 : a.memory_mb > 50 → b.memory_mb > 50)
    (hdyn : a.dynamicInputs ≤ b.dynamicInputs)
    (hops : a.opsWarn = true → b.opsWarn = true) :
    compatibilityScore b ≤ compatibilityScore a := by
  have hwsize := ite_chain_le (a.size_mb > 100) (a.size_mb > 50) (b.size_mb > 100)
    (b.size_mb > 50) hs100 hs50 (1 : ℕ) 1 0 (by omega) (by omega)
  have hwq := ite_le_flag b.quantized a.quantized hq (0 : ℕ) 1 (by omega)
  have hwops := ite_le_imp (a.opsWarn = true) (b.opsWarn = true) hops (1 : ℕ) 0 (by omega)
  have hwmem := ite_le_imp (a.memory_mb > 100) (b.memory_mb > 100) hm100 (1 : ℕ) 0 (by omega)
  have hw : (allWarnings a).length ≤ (allWarnings b).length := by
    rw [allWarnings_length, allWarnings_length]
    exact add_le_add (add_le_add (add_le_add (add_le_add hwsize hdyn) hwq) hwops) hwmem
  have hw' : ((allWarnings a).length : ℤ) ≤ ((allWarnings b).length : ℤ) := by
    exact_mod_cast hw
  have hpq := ite_le_flag b.quantized a.quantized hq (0 : ℤ) 20 (by omega)
  have hps := ite_chain_le (a.size_mb > 50) (a.size_mb > 20) (b.size_mb > 50)
    (b.size_mb > 20) hs50 hs20 (15 : ℤ) 5 0 (by omega) (by omega)
  have hpm := ite_le_imp (a.memory_mb > 50) (b.memory_mb > 50) hm50 (10 : ℤ) 0 (by omega)
  rw [score_closed_form, score_closed_form]
  have hmax : ∀ x y : ℤ, x ≤ y → max 0 x ≤ max 0 y := fun x y h =>
    max_le (le_max_left 0 y) (le_trans h (le_max_right 0 y))
  refine hmax _ _ ?_
  linarith [hpq, hps, hpm, hw']

/-- Witness for C3 at concrete inputs: a clean model versus one with more
detected issues. -/
theorem score_antitone_in_issues_witness :
    compatibilityScore ⟨60, false, 1, true, 60⟩ ≤ compatibilityScore ⟨10, true, 0, false, 10⟩ :=
  score_antitone_in_issues ⟨10, true, 0, false, 10⟩ ⟨60, false, 1, true, 60⟩
    (by decide) (by decide) (by decide) (by decide) (by decide) (by decide)
    (by decide) (by decide)

/-- The `valid` flag only records file existence and interpreter load; the
optional test inference never touches it. -/
lemma mainResults_valid (f l : Bool) (info : ModelInfo) (tf tok : Bool) :
    (mainResults f l info tf tok).valid = (f && l) := by
  cases f <;> cases l <;> simp [mainResults, validate] <;> split_ifs <;> rfl

/-- The recorded errors are exactly the file-missing / load-failure messages. -/
lemma mainResults_errors (f l : Bool) (info : ModelInfo) (tf tok : Bool) :
    (mainResults f l info tf tok).errors =
      if f then (if l then [] else ["Failed to load model"])
      else ["Model file not found"] := by
  cases f <;> cases l <;> simp [mainResults, validate] <;> split_ifs <;> rfl

/-- **C7.** The validator exits 1 exactly when an error was recorded, which
happens exactly when the model file is missing or the interpreter fails to
load; accumulated warnings (including those added by the optional test
inference) never change the exit code. -/
theorem exit_code_from_errors (f l : Bool) (info : ModelInfo) (tf tok : Bool) :
    (exitCode f l info tf tok = 1 ↔ (mainResults f l info tf tok).errors ≠ [])
    ∧ (exitCode f l info tf tok = 0 ↔ (mainResults f l info tf tok).errors = [])
    ∧ ((mainResults f l info tf tok).errors ≠ [] ↔ ¬(f = true ∧ l = true))
    ∧ (∀ (info' : ModelInfo) (tf' tok' : Bool),
        exitCode f l info' tf' tok' = exitCode f l info tf tok) := by
  refine ⟨?_, ?_, ?_, fun info' tf' tok' => ?_⟩ <;>
    cases f <;> cases l <;>
      simp [exitCode, mainResults_valid, mainResults_errors]

end ModelValidator

namespace BboxBatch

/-- The slices `image_names[i:i+B]` taken by `main`'s loop
`for i in range(0, total_images, batch_size)`, as a list of batches.  Only
meaningful for `B > 0`, matching the script's positive `--batch_size`. -/
def chunkNames (B : ℕ) : List String → List (List String)
  | [] => []
  | x :: xs => (x :: xs).take B :: chunkNames B (xs.drop (B - 1))
termination_by names => names.length
decreasing_by simp; omega

/-- Number of calls to `process_batch` the loop performs: one per batch slice,
except that a slice none of whose image files exists is skipped
(`if not batch_images: continue`).  `ex name` abstracts
`os.path.exists(os.path.join(images_dir, name))`. -/
def numProcessCalls (names : List String) (ex : String → Bool) (B : ℕ) : ℕ :=
  ((chunkNames B names).filter (fun batch => batch.any ex)).length

lemma chunkNames_length (B : ℕ) (hB : 0 < B) (names : List String) :
    (chunkNames B names).length = (names.length + B - 1) / B := by
  induction names using chunkNames.induct B with
  | case1 =>
    rw [chunkNames]
    simp only [List.length_nil, Nat.zero_add]
    rw [Nat.div_eq_of_lt (by omega)]
  | case2 x xs ih =>
    rw [chunkNames]
    simp only [List.length_cons, List.length_drop] at ih ⊢
    rw [ih]
    have hR : xs.length + 1 + B - 1 = xs.length + B := by omega
    rw [hR, Nat.add_div_right _ hB]
    rcases le_or_lt xs.length (B - 1) with h | h
    · have h0 : xs.length - (B - 1) = 0 := by omega
      rw [h0]
      rw [Nat.div_eq_of_lt (by omega), Nat.div_eq_of_lt (by omega)]
    · have h2 : xs.length - (B - 1) + B - 1 = xs.length := by omega
      rw [h2]

/-- Every chunk of a nonempty-per-chunk list where all images exist passes the
`batch_images` nonemptiness test. -/
lemma chunkNames_all_any (B : ℕ) (hB : 0 < B) (names : List String) (ex : String → Bool)
    (hex : ∀ n ∈ names, ex n = true) :
    ∀ batch ∈ chunkNames B names, batch.any ex = true := by
  induction names using chunkNames.induct B with
  | case1 => simp [chunkNames]
  | case2 x xs ih =>
    intro batch hbatch
    rw [chunkNames] at hbatch
    rcases List.mem_cons.mp hbatch with h | h
    · subst h
      have hx : x ∈ (x :: xs).take B := by
        cases B with
        | zero => omega
        | succ b => simp [List.take_succ_cons]
      exact List.any_eq_true.mpr ⟨x, hx, hex x (List.mem_cons_self x xs)⟩
    · exact ih (fun n hn => hex n (List.mem_cons_of_mem x (List.mem_of_mem_drop hn))) batch h

/-- **C2 (counterexample).** As stated — over every boxes file, with no
assumption that the listed image files exist — the claim fails: with one
listed image whose file is missing and batch size 1, zero calls to
`process_batch` occur while `ceil(1/1) = 1`. -/
theorem batch_calls_claim_counterexample :
    numProcessCalls ["img1.jpg"] (fun _ => false) 1
      ≠ ((["img1.jpg"] : List String).length + 1 - 1) / 1 := by
  simp [numProcessCalls, chunkNames]

/-- **C2 (amended).** If every image name listed in the boxes file has an
existing file, the loop performs exactly `ceil(N/B)` calls to
`process_batch`, one per slice of at most `B` images. -/
theorem batch_calls_ceil (names : List String) (ex : String → Bool) (B : ℕ)
    (hB : 0 < B) (hex : ∀ n ∈ names, ex n = true) :
    numProcessCalls names ex B = (names.length + B - 1) / B := by
  rw [numProcessCalls,
    List.filter_eq_self.mpr (chunkNames_all_any B hB names ex hex)]
  exact chunkNames_length B hB names

/-- Witness for the amended C2 at three images and batch size two. -/
theorem batch_calls_ceil_witness :
    0 < 2 ∧ numProcessCalls ["a.jpg", "b.jpg", "c.jpg"] (fun _ => true) 2
      = ((["a.jpg", "b.jpg", "c.jpg"] : List String).length + 2 - 1) / 2 :=
  ⟨by decide,
    batch_calls_ceil ["a.jpg", "b.jpg", "c.jpg"] (fun _ => true) 2 (by decide)
      (fun n _ => rfl)⟩

/-- One save step of the loop `for name, masks in zip(batch_names, batch_masks):
save_masks(...)`: either it raises (exception text) or it writes a list of
mask files (`save_masks` writes one file, or one per object). -/
def SaveStep : Type := Except String (List String)

/-- A batch's interaction with the external model and disk: `process_batch`
either raises or yields the per-image save steps that follow it inside the
same `try` block. -/
def BatchRun : Type := Except String (List SaveStep)

/-- The save loop: runs each save in order, stopping at the first exception;
returns the files written and the exception if one was raised. -/
def saveLoop : List SaveStep → List String × Option String
  | [] => ([], none)
  | Except.error e :: _ => ([], some e)
  | Except.ok files :: rest =>
    let r := saveLoop rest
    (files ++ r.1, r.2)

/-- The `try` block of one iteration of `main`'s batch loop. -/
def runBatch : BatchRun → List String × Option String
  | Except.error e => ([], some e)
  | Except.ok saves => saveLoop saves

/-- The whole batch loop: each batch is attempted once; an exception is turned
into a log line (`except Exception as e: print(...); continue`) and the loop
moves to the next batch.  Returns all files written and all log lines. -/
def runBatches : List BatchRun → List String × List String
  | [] => ([], [])
  | b :: bs =>
    let r := runBatch b
    let rest := runBatches bs
    (r.1 ++ rest.1,
      (match r.2 with
       | some e => ["Error processing batch: " ++ e]
       | none => []) ++ rest.2)

lemma saveLoop_ok_prefix (pre : List (List String)) (e : String) (post : List SaveStep) :
    saveLoop (pre.map Except.ok ++ Except.error e :: post) = (pre.flatten, some e) := by
  induction pre with
  | nil => rfl
  | cons files rest ih => simp [saveLoop, ih]

/-- **C6.** An exception raised while processing a batch (during
`process_batch`, modelled by an `error` batch) or while saving it (an `error`
save step after some successful ones) is caught and logged; the rest of that
batch is skipped — only the files already written before the exception remain,
nothing from the failed step or later, and the step is not retried — and
processing continues with the following batches untouched. -/
theorem batch_exception_logged_and_skipped (pre : List (List String)) (e : String)
    (post : List SaveStep) (bs : List BatchRun) :
    (runBatches (Except.ok (pre.map Except.ok ++ Except.error e :: post) :: bs)).1
        = pre.flatten ++ (runBatches bs).1
    ∧ (runBatches (Except.ok (pre.map Except.ok ++ Except.error e :: post) :: bs)).2
        = ("Error processing batch: " ++ e) :: (runBatches bs).2
    ∧ (runBatches (Except.error e :: bs)).1 = (runBatches bs).1
    ∧ (runBatches (Except.error e :: bs)).2
        = ("Error processing batch: " ++ e) :: (runBatches bs).2 := by
  refine ⟨?_, ?_, ?_, ?_⟩ <;> simp [runBatches, runBatch, saveLoop_ok_prefix]

/-- The pairs `(name, masks)` traversed by `for name, masks in
zip(batch_names, batch_masks)`: the name list is the whole slice, while
`batch_masks` holds one entry per image whose file existed (missing files are
skipped when `batch_images` is built).  `maskOf n` abstracts the model's mask
batch for image `n`. -/
def savedPairs {Mask : Type} (names : List String) (ex : String → Bool)
    (maskOf : String → Mask) : List (String × Mask) :=
  names.zip ((names.filter ex).map maskOf)

/-- **C9.** Masks are paired with names positionally: when every listed image
file exists each mask is saved under its own image's name, and when one listed
file is missing every mask from that point on is paired with an earlier name
in the slice (`bad` receives the first `post` image's masks, and so on). -/
theorem masks_paired_positionally {Mask : Type} (maskOf : String → Mask)
    (ex : String → Bool) :
    (∀ names : List String, (∀ n ∈ names, ex n = true) →
        savedPairs names ex maskOf = names.map (fun n => (n, maskOf n)))
    ∧ (∀ (pre : List String) (bad : String) (post : List String),
        (∀ n ∈ pre, ex n = true) → ex bad = false → (∀ n ∈ post, ex n = true) →
        savedPairs (pre ++ bad :: post) ex maskOf
          = pre.zip (pre.map maskOf) ++ (bad :: post).zip (post.map maskOf)) := by
  constructor
  · intro names hex
    rw [savedPairs, List.filter_eq_self.mpr hex]
    induction names with
    | nil => rfl
    | cons n rest ih =>
      simp only [List.map_cons, List.zip_cons_cons, List.map] at ih ⊢
      rw [ih (fun a ha => hex a (List.mem_cons_of_mem n ha))]
  · intro pre bad post hpre hbad hpost
    rw [savedPairs]
    have hfil : (pre ++ bad :: post).filter ex = pre ++ post := by
      rw [List.filter_append, List.filter_eq_self.mpr hpre, List.filter_cons, hbad]
      simp [List.filter_eq_self.mpr hpost]
    rw [hfil, List.map_append, List.zip_append (by simp)]

/-- Witness for C9: with `b.jpg` missing from a three-image slice, the masks
computed for `c.jpg` are saved under the name `b.jpg`. -/
theorem masks_paired_positionally_witness :
    savedPairs (["a.jpg"] ++ "b.jpg" :: ["c.jpg"]) (fun n => !(n == "b.jpg"))
        (fun n => String.length n + 1)
      = [("a.jpg", "a.jpg".length + 1)] ++ [("b.jpg", "c.jpg".length + 1)] :=
  ((masks_paired_positionally (fun n => String.length n + 1)
      (fun n => !(n == "b.jpg"))).2
    ["a.jpg"] "b.jpg" ["c.jpg"] (by decide) (by decide) (by decide)).trans (by decide)

end BboxBatch

namespace InteractiveSeg

/-- A click coordinate, `(x, y)` in pixels. -/
abbrev Point : Type := ℤ × ℤ

/-- The external EdgeTAM model and processor, abstracted for one fixed image
and initial box: `boxMask`, `boxEmb` and `boxSizes` are the outcome of
`_initialize_segmentation`'s box inference (best-IoU mask, image embeddings,
original sizes), `refine` is the forward pass `model(input_points,
input_labels, input_masks, image_embeddings, multimask_output=False)`, and
`postProcess` is `processor.post_process_masks(..)[0][0, 0]`. -/
structure SegModel (Mask Emb Sizes DMask : Type) where
  boxMask : Mask
  boxEmb : Emb
  boxSizes : Sizes
  refine : List Point → List ℕ → Mask → Emb → Mask
  postProcess : Mask → Sizes → DMask

/-- The mutable fields of `InteractiveSegmenter`. -/
structure SegState (Mask Emb Sizes DMask : Type) where
  positive : List Point
  negative : List Point
  currentMask : Mask
  imageEmbeddings : Emb
  originalSizes : Sizes
  displayMask : DMask
deriving Repr

/-- The state right after `__init__` (which ends in
`_initialize_segmentation`). -/
def initState {Mask Emb Sizes DMask : Type} (m : SegModel Mask Emb Sizes DMask) :
    SegState Mask Emb Sizes DMask :=
  { positive := []
    negative := []
    currentMask := m.boxMask
    imageEmbeddings := m.boxEmb
    originalSizes := m.boxSizes
    displayMask := m.postProcess m.boxMask m.boxSizes }

/-- The arguments of one refinement inference call inside `add_point`. -/
structure InferCall (Mask Emb : Type) where
  points : List Point
  labels : List ℕ
  inputMask : Mask
  embeddings : Emb
deriving Repr

/-- `InteractiveSegmenter.add_point`: append the click to the matching list,
rebuild `all_points = positive + negative` and `all_labels = [1]*len(pos) +
[0]*len(neg)`, return early if there are no points, otherwise run one
inference call carrying the current mask and embeddings and store its output
as the new current/display mask.  The call actually issued is returned
alongside the new state. -/
def addPoint {Mask Emb Sizes DMask : Type} (m : SegModel Mask Emb Sizes DMask)
    (s : SegState Mask Emb Sizes DMask) (x y : ℤ) (isPositive : Bool) :
    SegState Mask Emb Sizes DMask × Option (InferCall Mask Emb) :=
  let pos' := if isPositive then s.positive ++ [(x, y)] else s.positive
  let neg' := if isPositive then s.negative else s.negative ++ [(x, y)]
  let allPoints := pos' ++ neg'
  let allLabels := List.replicate pos'.length 1 ++ List.replicate neg'.length 0
  if allPoints.isEmpty then
    ({ s with positive := pos', negative := neg' }, none)
  else
    let newMask := m.refine allPoints allLabels s.currentMask s.imageEmbeddings
    ({ s with
        positive := pos'
        negative := neg'
        currentMask := newMask
        displayMask := m.postProcess newMask s.originalSizes },
      some ⟨allPoints, allLabels, s.currentMask, s.imageEmbeddings⟩)

/-- `InteractiveSegmenter.reset`: clear both point lists, then rerun
`_initialize_segmentation`, which overwrites the mask, embeddings, sizes and
display mask from the box inference. -/
def reset {Mask Emb Sizes DMask : Type} (m : SegModel Mask Emb Sizes DMask)
    (s : SegState Mask Emb Sizes DMask) : SegState Mask Emb Sizes DMask :=
  let s1 := { s with positive := [], negative := [] }
  { s1 with
      currentMask := m.boxMask
      imageEmbeddings := m.boxEmb
      originalSizes := m.boxSizes
      displayMask := m.postProcess m.boxMask m.boxSizes }

/-- A user click: coordinates and whether it was a left (positive) click. -/
abbrev Click : Type := ℤ × ℤ × Bool

/-- Run a sequence of clicks through `add_point`. -/
def applyClicks {Mask Emb Sizes DMask : Type} (m : SegModel Mask Emb Sizes DMask)
    (s : SegState Mask Emb Sizes DMask) : List Click → SegState Mask Emb Sizes DMask
  | [] => s
  | (x, y, b) :: rest => applyClicks m (addPoint m s x y b).1 rest

/-- The positive clicks of a sequence, in click order. -/
def positivesOf (clicks : List Click) : List Point :=
  (clicks.filter (fun c => c.2.2)).map (fun c => (c.1, c.2.1))

/-- The negative clicks of a sequence, in click order. -/
def negativesOf (clicks : List Click) : List Point :=
  (clicks.filter (fun c => !c.2.2)).map (fun c => (c.1, c.2.1))

lemma addPoint_state {Mask Emb Sizes DMask : Type} (m : SegModel Mask Emb Sizes DMask)
    (s : SegState Mask Emb Sizes DMask) (x y : ℤ) (b : Bool) :
    ((addPoint m s x y b).1.positive
        = if b then s.positive ++ [(x, y)] else s.positive)
    ∧ ((addPoint m s x y b).1.negative
        = if b then s.negative else s.negative ++ [(x, y)]) := by
  rw [addPoint]
  cases b <;> split_ifs <;> simp_all

lemma applyClicks_points {Mask Emb Sizes DMask : Type} (m : SegModel Mask Emb Sizes DMask)
    (clicks : List Click) (s : SegState Mask Emb Sizes DMask) :
    ((applyClicks m s clicks).positive = s.positive ++ positivesOf clicks)
    ∧ ((applyClicks m s clicks).negative = s.negative ++ negativesOf clicks) := by
  induction clicks generalizing s with
  | nil => simp [applyClicks, positivesOf, negativesOf]
  | cons c rest ih =>
    obtain ⟨x, y, b⟩ := c
    rw [applyClicks]
    obtain ⟨ihp, ihn⟩ := ih (addPoint m s x y b).1
    obtain ⟨hp, hn⟩ := addPoint_state m s x y b
    constructor
    · rw [ihp, hp]
      cases b <;> simp [positivesOf, List.filter_cons]
    · rw [ihn, hn]
      cases b <;> simp [negativesOf, List.filter_cons]

/-- **C4.** Every `add_point` call issues exactly one inference call whose
point list is the entire accumulated click history (the updated positive list
followed by the updated negative list, with matching labels), carrying the
previous `current_mask` and the stored image embeddings as extra inputs; the
new `current_mask` is that call's output and the display mask is its
post-processing. -/
theorem add_point_sends_full_history {Mask Emb Sizes DMask : Type}
    (m : SegModel Mask Emb Sizes DMask) (s : SegState Mask Emb Sizes DMask)
    (x y : ℤ) (b : Bool) :
    (addPoint m s x y b).1.positive = (if b then s.positive ++ [(x, y)] else s.positive)
    ∧ (addPoint m s x y b).1.negative = (if b then s.negative else s.negative ++ [(x, y)])
    ∧ (addPoint m s x y b).2
        = some
            ⟨(addPoint m s x y b).1.positive ++ (addPoint m s x y b).1.negative,
              List.replicate (addPoint m s x y b).1.positive.length 1
                ++ List.replicate (addPoint m s x y b).1.negative.length 0,
              s.currentMask, s.imageEmbeddings⟩
    ∧ (addPoint m s x y b).1.currentMask
        = m.refine ((addPoint m s x y b).1.positive ++ (addPoint m s x y b).1.negative)
            (List.replicate (addPoint m s x y b).1.positive.length 1
              ++ List.replicate (addPoint m s x y b).1.negative.length 0)
            s.currentMask s.imageEmbeddings
    ∧ (addPoint m s x y b).1.displayMask
        = m.postProcess ((addPoint m s x y b).1.currentMask) s.originalSizes := by
  cases b <;> simp [addPoint]

/-- **C5.** From any state reachable by a sequence of clicks after
construction, `reset` empties both point lists and recomputes the box-derived
mask, embeddings, sizes and display mask: the resulting state is exactly the
state immediately after construction. -/
theorem reset_restores_initial_state {Mask Emb Sizes DMask : Type}
    (m : SegModel Mask Emb Sizes DMask) (clicks : List Click) :
    reset m (applyClicks m (initState m) clicks) = initState m := by
  rfl

/-- **C10.** After any click history, the next click's inference call sends
all positive points in click order followed by all negative points in click
order, labelled by ones then zeros — the chronological interleaving of
positive and negative clicks is replaced by this grouping. -/
theorem resend_groups_positives_before_negatives {Mask Emb Sizes DMask : Type}
    (m : SegModel Mask Emb Sizes DMask) (clicks : List Click) (x y : ℤ) (b : Bool) :
    (addPoint m (applyClicks m (initState m) clicks) x y b).2
      = some
          ⟨positivesOf (clicks ++ [(x, y, b)]) ++ negativesOf (clicks ++ [(x, y, b)]),
            List.replicate (positivesOf (clicks ++ [(x, y, b)])).length 1
              ++ List.replicate (negativesOf (clicks ++ [(x, y, b)])).length 0,
            (applyClicks m (initState m) clicks).currentMask,
            (applyClicks m (initState m) clicks).imageEmbeddings⟩ := by
  obtain ⟨hp, hn⟩ := applyClicks_points m clicks (initState m)
  have hp' : (applyClicks m (initState m) clicks).positive = positivesOf clicks := by
    rw [hp]; simp [initState]
  have hn' : (applyClicks m (initState m) clicks).negative = negativesOf clicks := by
    rw [hn]; simp [initState]
  have hpos : positivesOf (clicks ++ [(x, y, b)])
      = positivesOf clicks ++ (if b then [(x, y)] else []) := by
    cases b <;> simp [positivesOf, List.filter_append, List.filter_cons]
  have hneg : negativesOf (clicks ++ [(x, y, b)])
      = negativesOf clicks ++ (if b then [] else [(x, y)]) := by
    cases b <;> simp [negativesOf, List.filter_append, List.filter_cons]
  cases b <;> simp [addPoint, hp', hn', hpos, hneg]

/-- Python's `box_str.split(',')` on the character list of the string:
splits at every comma, keeping empty pieces. -/
def splitOnComma : List Char → List (List Char)
  | [] => [[]]
  | c :: cs =>
    let rest := splitOnComma cs
    if c = ',' then [] :: rest
    else
      match rest with
      | [] => [[c]]
      | r :: rs => (c :: r) :: rs

/-- Accumulator loop of decimal digit parsing: fails on the first non-digit
character. -/
def parseDigitsAux : ℕ → List Char → Option ℕ
  | acc, [] => some acc
  | acc, c :: cs =>
    if c.isDigit then parseDigitsAux (acc * 10 + (c.toNat - 48)) cs else none

/-- A nonempty run of decimal digits, as a natural number. -/
def parseDigits (cs : List Char) : Option ℕ :=
  if cs.isEmpty then none else parseDigitsAux 0 cs

/-- The whitespace stripping `int()` applies to its argument. -/
def pyTrim (cs : List Char) : List Char :=
  ((cs.dropWhile (fun c => c.isWhitespace)).reverse.dropWhile
    (fun c => c.isWhitespace)).reverse

/-- Sign handling and digit run of `int()`, after stripping. -/
def pyIntCore : List Char → Option ℤ
  | [] => none
  | c :: rest =>
    if c = '-' then (parseDigits rest).map (fun n => -(Int.ofNat n))
    else if c = '+' then (parseDigits rest).map Int.ofNat
    else (parseDigits (c :: rest)).map Int.ofNat

/-- Python's `int(s)` on a character list: strip surrounding whitespace, allow
one optional sign, then require a nonempty digit run; `ValueError` is `none`.
(Underscore digit separators are not modelled.) -/
def pyInt (cs : List Char) : Option ℤ :=
  pyIntCore (pyTrim cs)

/-- The list comprehension `[int(x) for x in pieces]`: evaluates `int` on each
piece in order; the first `ValueError` aborts the whole comprehension. -/
def mapPyInt : List (List Char) → Option (List ℤ)
  | [] => some []
  | t :: ts => (pyInt t).bind (fun z => (mapPyInt ts).map (fun zs => z :: zs))

/-- `parse_box`: `[int(x) for x in box_str.split(',')]`.  A `ValueError` in
any component aborts the comprehension, modelled by `none`. -/
def parse_box (s : String) : Option (List ℤ) :=
  mapPyInt (splitOnComma s.data)

/-- The character of a decimal digit value. -/
def digitChar (d : ℕ) : Char := Char.ofNat (d + 48)

/-- The canonical decimal rendering of a natural number. -/
def renderNat (n : ℕ) : List Char :=
  if n = 0 then ['0'] else ((Nat.digits 10 n).map digitChar).reverse

/-- The canonical decimal rendering of an integer literal. -/
def renderInt (z : ℤ) : List Char :=
  if z < 0 then '-' :: renderNat z.natAbs else renderNat z.toNat

/-- Join character-list tokens with commas. -/
def intercalateComma : List (List Char) → List Char
  | [] => []
  | [t] => t
  | t :: ts => t ++ ',' :: intercalateComma ts

/-- A comma-separated string of canonical integer literals. -/
def renderCSV (l : List ℤ) : String :=
  String.mk (intercalateComma (l.map renderInt))

lemma digitChar_isDigit {d : ℕ} (h : d < 10) : (digitChar d).isDigit = true := by
  interval_cases d <;> decide

lemma digitChar_toNat {d : ℕ} (h : d < 10) : (digitChar d).toNat - 48 = d := by
  interval_cases d <;> decide

lemma digitChar_not_ws {d : ℕ} (h : d < 10) : (digitChar d).isWhitespace = false := by
  interval_cases d <;> decide

lemma digitChar_ne_comma {d : ℕ} (h : d < 10) : ¬(digitChar d = ',') := by
  interval_cases d <;> decide

lemma dropWhile_eq_self_of_all (p : Char → Bool) :
    ∀ cs : List Char, (∀ c ∈ cs, p c = false) → cs.dropWhile p = cs
  | [], _ => rfl
  | c :: cs, h => by
    rw [List.dropWhile_cons, h c (List.mem_cons_self c cs)]
    simp

lemma pyTrim_eq_self (cs : List Char) (h : ∀ c ∈ cs, c.isWhitespace = false) :
    pyTrim cs = cs := by
  rw [pyTrim, dropWhile_eq_self_of_all _ cs h,
    dropWhile_eq_self_of_all _ cs.reverse (fun c hc => h c (List.mem_reverse.mp hc)),
    List.reverse_reverse]

lemma parseDigitsAux_eval (ms : List ℕ) (h : ∀ d ∈ ms, d < 10) (acc : ℕ) :
    parseDigitsAux acc (ms.map digitChar)
      = some (acc * 10 ^ ms.length + Nat.ofDigits 10 ms.reverse) := by
  induction ms generalizing acc with
  | nil => simp [parseDigitsAux, Nat.ofDigits]
  | cons d ds ih =>
    have hd : d < 10 := h d (List.mem_cons_self d ds)
    rw [List.map_cons, parseDigitsAux, if_pos (digitChar_isDigit hd), digitChar_toNat hd,
      ih (fun x hx => h x (List.mem_cons_of_mem d hx))]
    congr 1
    rw [List.reverse_cons, Nat.ofDigits_append, Nat.ofDigits_singleton]
    simp only [List.length_cons, List.length_reverse]
    ring

lemma renderNat_digits (n : ℕ) : ∀ c ∈ renderNat n, c.isDigit = true := by
  intro c hc
  rw [renderNat] at hc
  split_ifs at hc with h
  · simp only [List.mem_singleton] at hc
    subst hc; decide
  · rw [List.mem_reverse] at hc
    obtain ⟨d, hd, rfl⟩ := List.mem_map.mp hc
    exact digitChar_isDigit (Nat.digits_lt_base (by norm_num) hd)

lemma renderNat_not_ws (n : ℕ) : ∀ c ∈ renderNat n, c.isWhitespace = false := by
  intro c hc
  rw [renderNat] at hc
  split_ifs at hc with h
  · simp only [List.mem_singleton] at hc
    subst hc; decide
  · rw [List.mem_reverse] at hc
    obtain ⟨d, hd, rfl⟩ := List.mem_map.mp hc
    exact digitChar_not_ws (Nat.digits_lt_base (by norm_num) hd)

lemma renderNat_ne_comma (n : ℕ) : ∀ c ∈ renderNat n, ¬(c = ',') := by
  intro c hc
  rw [renderNat] at hc
  split_ifs at hc with h
  · simp only [List.mem_singleton] at hc
    subst hc; decide
  · rw [List.mem_reverse] at hc
    obtain ⟨d, hd, rfl⟩ := List.mem_map.mp hc
    exact digitChar_ne_comma (Nat.digits_lt_base (by norm_num) hd)

lemma renderNat_ne_nil (n : ℕ) : renderNat n ≠ [] := by
  rw [renderNat]
  split_ifs with h
  · simp
  · simp [Nat.digits_ne_nil_iff_ne_zero.mpr h]

lemma parseDigits_renderNat (n : ℕ) : parseDigits (renderNat n) = some n := by
  rw [renderNat]
  split_ifs with h
  · subst h; decide
  · have hne : Nat.digits 10 n ≠ [] := Nat.digits_ne_nil_iff_ne_zero.mpr h
    rw [← List.map_reverse]
    have hlt : ∀ d ∈ (Nat.digits 10 n).reverse, d < 10 :=
      fun d hd => Nat.digits_lt_base (by norm_num) (List.mem_reverse.mp hd)
    rw [parseDigits, if_neg (by simp [List.isEmpty_iff, hne]),
      parseDigitsAux_eval _ hlt 0]
    simp [Nat.ofDigits_digits]

lemma pyInt_renderNat (n : ℕ) : pyInt (renderNat n) = some (n : ℤ) := by
  rw [pyInt, pyTrim_eq_self _ (renderNat_not_ws n)]
  obtain ⟨c, rest, hcr⟩ := List.exists_cons_of_ne_nil (renderNat_ne_nil n)
  have hc : c.isDigit = true := renderNat_digits n c (hcr ▸ List.mem_cons_self c rest)
  have hdash : ¬(c = '-') := fun he => by rw [he] at hc; exact absurd hc (by decide)
  have hplus : ¬(c = '+') := fun he => by rw [he] at hc; exact absurd hc (by decide)
  rw [hcr, pyIntCore, if_neg hdash, if_neg hplus, ← hcr, parseDigits_renderNat]
  rfl

lemma pyInt_renderInt (z : ℤ) : pyInt (renderInt z) = some z := by
  rw [renderInt]
  split_ifs with h
  · rw [pyInt, pyTrim_eq_self _ ?hws, pyIntCore, if_pos rfl, parseDigits_renderNat]
    case hws =>
      intro c hc
      rcases List.mem_cons.mp hc with hc | hc
      · subst hc; decide
      · exact renderNat_not_ws _ c hc
    rw [Option.map_some']
    congr 1
    simp only [Int.ofNat_eq_coe]
    omega
  · rw [pyInt_renderNat]
    congr 1
    omega

lemma renderInt_ne_comma (z : ℤ) : ∀ c ∈ renderInt z, ¬(c = ',') := by
  intro c hc
  rw [renderInt] at hc
  split_ifs at hc with h
  · rcases List.mem_cons.mp hc with hc | hc
    · subst hc; decide
    · exact renderNat_ne_comma _ c hc
  · exact renderNat_ne_comma _ c hc

lemma splitOnComma_append (t : List Char) (h : ∀ c ∈ t, ¬(c = ',')) (cs : List Char)
    (r : List Char) (rs : List (List Char)) (hcs : splitOnComma cs = r :: rs) :
    splitOnComma (t ++ cs) = (t ++ r) :: rs := by
  induction t with
  | nil => simpa using hcs
  | cons c t' ih =>
    have hc : ¬(c = ',') := h c (List.mem_cons_self c t')
    have ih' := ih (fun a ha => h a (List.mem_cons_of_mem c ha))
    rw [List.cons_append, splitOnComma]
    simp only [ih', if_neg hc, List.cons_append]

lemma splitOnComma_intercalate :
    ∀ (ts : List (List Char)) (t : List Char),
      (∀ tok ∈ t :: ts, ∀ c ∈ tok, ¬(c = ',')) →
      splitOnComma (intercalateComma (t :: ts)) = t :: ts := by
  intro ts
  induction ts with
  | nil =>
    intro t h
    have := splitOnComma_append t (h t (List.mem_cons_self t [])) [] [] [] rfl
    simpa [intercalateComma] using this
  | cons t2 ts' ih =>
    intro t h
    have ih2 := ih t2 (fun tok htok => h tok (List.mem_cons_of_mem t htok))
    have hsplit : splitOnComma (',' :: intercalateComma (t2 :: ts')) = [] :: t2 :: ts' := by
      rw [splitOnComma]
      simp [ih2]
    have := splitOnComma_append t (h t (List.mem_cons_self t (t2 :: ts')))
      (',' :: intercalateComma (t2 :: ts')) [] (t2 :: ts') hsplit
    simpa [intercalateComma] using this

lemma mapPyInt_render : ∀ l : List ℤ, mapPyInt (l.map renderInt) = some l := by
  intro l
  induction l with
  | nil => rfl
  | cons z rest ih =>
    rw [List.map_cons, mapPyInt, pyInt_renderInt, ih]
    rfl

/-- **C8.** `parse_box` returns exactly the integers of any comma-separated
list of integer literals, whatever their number or order: no four-element
check and no `x_min ≤ x_max` / `y_min ≤ y_max` check is performed. -/
theorem parse_box_no_validation (z : ℤ) (l : List ℤ) :
    parse_box (renderCSV (z :: l)) = some (z :: l) := by
  rw [parse_box, renderCSV]
  have hdata : (String.mk (intercalateComma ((z :: l).map renderInt))).data
      = intercalateComma ((z :: l).map renderInt) := rfl
  rw [hdata, List.map_cons,
    splitOnComma_intercalate (l.map renderInt) (renderInt z) ?hfree,
    ← List.map_cons, mapPyInt_render]
  case hfree =>
    intro tok htok
    rcases List.mem_cons.mp htok with htok | htok
    · subst htok; exact renderInt_ne_comma z
    · obtain ⟨w, _, rfl⟩ := List.mem_map.mp htok
      exact renderInt_ne_comma w

end InteractiveSeg
